import Mathlib

/-! Shallow embedding of the filtering / grouping / aggregation pipeline of the
UTMDASH dashboard (src/components/Dashboard.tsx and the variant component in
src/unnamed/part_000), together with theorems settling the specification
claims about it.

Modelling conventions:
* JavaScript numbers are modelled as exact rationals (`ℚ`); `NaN` is modelled
  by `Option` (`none` = NaN).  The dashboard only adds, multiplies and divides
  user data, so no claim below depends on binary floating-point rounding.
* A JavaScript `Date` is its time value: milliseconds since the epoch (`ℤ`),
  in one fixed civil time zone with no offset or DST (the spec leaves the zone
  to the implementation).  An invalid `Date` is `none : Option ℤ`, and the
  NaN-comparison rules (`NaN < x`, `x < NaN` are false) are reproduced.
* Civil calendar conversions follow the ECMAScript `MakeDay` / `DateFromTime`
  operations (standard Gregorian `days from civil` arithmetic).
* Every `new Date()` call inside one evaluation of the pipeline is modelled as
  the same reference instant `ref : ℤ`.
* String lowercasing / trimming / number parsing are modelled on the ASCII
  fragment actually used by the dashboard (header names, UTM values, decimal
  cells); hex / exponent number literals and non-ISO date strings accepted by
  some JS engines are conservatively unparseable here, and non-integral
  rationals get a placeholder rendering (no theorem depends on either).
-/

namespace UTMDash

/-! Section: JavaScript string primitives -/

/-- ASCII lowercasing, as `String.prototype.toLowerCase` acts on the ASCII
range used by the dashboard's header fragments and search terms. -/
def lowerChar (c : Char) : Char :=
  if 65 ≤ c.toNat ∧ c.toNat ≤ 90 then Char.ofNat (c.toNat + 32) else c

/-- Lowercased character list of a string (`s.toLowerCase()`). -/
def jsLower (s : String) : List Char := s.data.map lowerChar

/-- Does `needle` occur at the front of `hay`? -/
def frontMatches : List Char → List Char → Bool
  | [], _ => true
  | _ :: _, [] => false
  | a :: as, b :: bs => a == b && frontMatches as bs

/-- Models `hay.includes(needle)` : substring occurrence test. -/
def containsSeg : List Char → List Char → Bool
  | [], needle => frontMatches needle []
  | c :: t, needle => frontMatches needle (c :: t) || containsSeg t needle

/-- Models `s.split(sep)` on character lists (JS semantics: `"" ↦ [""]`,
separators at the ends produce empty pieces). -/
def splitCh : List Char → Char → List (List Char)
  | [], _ => [[]]
  | c :: cs, sep =>
    let rest := splitCh cs sep
    if c == sep then [] :: rest
    else
      match rest with
      | [] => [[c]]
      | r :: rs => (c :: r) :: rs

/-- Models `xs[0]` of a split result. -/
def headD (l : List (List Char)) : List Char := l.headD []

def isWSCh (c : Char) : Bool := c == ' ' || c == '\t' || c == '\n' || c == '\r'

/-- Models `s.trim()` (ASCII whitespace). -/
def trimWS (cs : List Char) : List Char :=
  ((cs.dropWhile isWSCh).reverse.dropWhile isWSCh).reverse

def isDigitCh (c : Char) : Bool := 48 ≤ c.toNat && c.toNat ≤ 57

def digitsToNat (cs : List Char) : ℕ :=
  cs.foldl (fun a c => 10 * a + (c.toNat - 48)) 0

/-! Section: Cell values and JavaScript coercions

A cell holds a string or a number; a missing cell reads as `undefined`. -/

inductive Value where
  | vStr (s : String)
  | vNum (q : ℚ)
  | undef
deriving DecidableEq

/-- JavaScript truthiness of a cell value (`undefined`, `""` and `0` are
falsy; `NaN` cannot arise as a stored cell in the exact-rational model). -/
def truthy : Value → Bool
  | .vStr s => !(s == "")
  | .vNum q => if q = 0 then false else true
  | .undef => false

/-- Models `v || d` for a string default `d`, as used for the `'N/A'` fallbacks. -/
def jsOrDefault (v : Value) (d : String) : Value :=
  if truthy v then v else .vStr d

/-- Rendering of a rational by `String(number)`.  Integral values render as
JS integers do; the placeholder branch for non-integral values is never
relied upon by a theorem (the dashboard never stringifies one). -/
def jsNumRepr (q : ℚ) : String :=
  if q.den = 1 then
    if q.num < 0 then "-" ++ Nat.repr q.num.natAbs else Nat.repr q.num.natAbs
  else
    (if q.num < 0 then "-" else "") ++ Nat.repr q.num.natAbs ++ "/" ++ Nat.repr q.den

/-- Models `String(v)` : string coercion of a cell value.  An absent cell
(`undefined`) coerces to the literal string `"undefined"`. -/
def jsStr : Value → String
  | .vStr s => s
  | .vNum q => jsNumRepr q
  | .undef => "undefined"

/-! Section: `Number(string)` : decimal parsing

A parsed JS number is kept as an exact pair (numerator, positive power-of-ten
denominator) so that the calendar arithmetic below stays in `ℤ`;
`none` models `NaN`. -/

def decCore (cs : List Char) : Option (ℤ × ℕ) :=
  match splitCh cs '.' with
  | [ip] =>
    if ip ≠ [] ∧ ip.all isDigitCh then some ((digitsToNat ip : ℤ), 1) else none
  | [ip, fp] =>
    if (ip ++ fp) ≠ [] ∧ ip.all isDigitCh ∧ fp.all isDigitCh then
      some (((digitsToNat ip * 10 ^ fp.length + digitsToNat fp : ℕ) : ℤ), 10 ^ fp.length)
    else none
  | _ => none

/-- Models `Number(s)` on a character list: trims whitespace, an empty string is `0`,
an optional sign followed by a decimal literal; anything else is NaN. -/
def rawOfChars (cs : List Char) : Option (ℤ × ℕ) :=
  match trimWS cs with
  | [] => some (0, 1)
  | '-' :: rest => (decCore rest).map (fun p => (-p.1, p.2))
  | '+' :: rest => decCore rest
  | cs₁ => decCore cs₁

def strToNumRaw (s : String) : Option (ℤ × ℕ) := rawOfChars s.data

def rawToRat (p : ℤ × ℕ) : ℚ := (p.1 : ℚ) / (p.2 : ℚ)

/-- Truncation toward zero of an exact parsed number
(ECMAScript `ToIntegerOrInfinity`). -/
def rawTrunc (p : ℤ × ℕ) : ℤ := Int.tdiv p.1 (p.2 : ℤ)

/-- Models `Number(v)` on a cell value (`none` = NaN). -/
def jsToNumber : Value → Option ℚ
  | .vNum q => some q
  | .vStr s => (strToNumRaw s).map rawToRat
  | .undef => none

/-- Models `Number(v) || 0` : the dashboard's metric coercion — non-numeric or
missing cells contribute `0`. -/
def jsNumOr0 (v : Value) : ℚ := (jsToNumber v).getD 0

/-! Section: Civil calendar and `Date` arithmetic -/

def msPerDay : ℤ := 86400000

def isLeapZ (y : ℤ) : Bool :=
  (y % 4 = 0 ∧ ¬ y % 100 = 0) ∨ y % 400 = 0

/-- Length of month `m` (1-based) of year `y`. -/
def daysInMonthZ (y m : ℤ) : ℤ :=
  if m = 2 then (if isLeapZ y then 29 else 28)
  else if m = 4 ∨ m = 6 ∨ m = 9 ∨ m = 11 then 30
  else 31

/-- Day number (days since 1970-01-01) of civil date `(y, m, d)` with
`m ∈ [1,12]` and arbitrary `d` (linear in `d`, as ECMAScript `MakeDay`
is in its day argument).  Standard Gregorian conversion; `/` on `ℤ` is
floor division for these positive divisors. -/
def daysFromCivil (y m d : ℤ) : ℤ :=
  let yy := if m ≤ 2 then y - 1 else y
  let era := yy / 400
  let yoe := yy - era * 400
  let mp := (m + 9) % 12
  let doy := (153 * mp + 2) / 5 + d - 1
  let doe := yoe * 365 + yoe / 4 - yoe / 100 + doy
  era * 146097 + doe - 719468

/-- Civil date `(y, m, d)` (`m ∈ [1,12]`) of a day number: the standard
inverse Gregorian conversion used by `DateFromTime`-style accessors. -/
def civilFromDays (z : ℤ) : ℤ × ℤ × ℤ :=
  let z₁ := z + 719468
  let era := z₁ / 146097
  let doe := z₁ - era * 146097
  let yoe := (doe - doe / 1460 + doe / 36524 - doe / 146096) / 365
  let y := yoe + era * 400
  let doy := doe - (365 * yoe + yoe / 4 - yoe / 100)
  let mp := (5 * doy + 2) / 153
  let d := doy - (153 * mp + 2) / 5 + 1
  let m := mp + (if mp < 10 then 3 else -9)
  (if m ≤ 2 then y + 1 else y, m, d)

/-- ECMAScript `MakeDay`: 0-based month `m0` of any size is folded into the
year, then the (linear) day argument is applied. -/
def makeDay (y m0 d : ℤ) : ℤ :=
  daysFromCivil (y + m0 / 12) ((m0 % 12) + 1) d

/-- Models `date.getDate()` : day of month of a time value. -/
def jsGetDate (t : ℤ) : ℤ := (civilFromDays (t / msPerDay)).2.2

/-- Models `date.setDate(x)` : same year/month and time-of-day, day-of-month `x`
(out-of-range values roll over, per `MakeDay`). -/
def jsSetDate (t x : ℤ) : ℤ :=
  let c := civilFromDays (t / msPerDay)
  daysFromCivil c.1 c.2.1 x * msPerDay + t % msPerDay

/-- Models `date.setHours(23, 59, 59, 999)` : last millisecond of the same day. -/
def jsEndOfDay (t : ℤ) : ℤ := t / msPerDay * msPerDay + 86399999

def sameCivilDay (a b : ℤ) : Bool :=
  civilFromDays (a / msPerDay) = civilFromDays (b / msPerDay)

/-- A `Date` object's time value; `none` is an invalid date (NaN). -/
abbrev JSDate := Option ℤ

/-- Models `a < b` on `Date`s: false whenever either side is NaN. -/
def jsDateLt : JSDate → JSDate → Bool
  | some a, some b => a < b
  | _, _ => false

/-- Models `a > b` on `Date`s. -/
def jsDateGt (a b : JSDate) : Bool := jsDateLt b a

/-- Equality of `toDateString()` renderings: same civil day for valid dates;
two invalid dates both render `"Invalid Date"`. -/
def jsDateEqDayStr : JSDate → JSDate → Bool
  | some a, some b => sameCivilDay a b
  | none, none => true
  | _, _ => false

/-- Models `new Date(y, m, d)` (0-based month): NaN arguments give an invalid date,
arguments are truncated toward zero, and a year in `[0, 99]` is offset
by 1900. -/
def jsMkDate (y m d : Option (ℤ × ℕ)) : JSDate :=
  match y, m, d with
  | some y₁, some m₁, some d₁ =>
    let yi := rawTrunc y₁
    let yr := if 0 ≤ yi ∧ yi ≤ 99 then yi + 1900 else yi
    some (makeDay yr (rawTrunc m₁) (rawTrunc d₁) * msPerDay)
  | _, _, _ => none

/-- Models `new Date(string)` for the `YYYY-MM-DD` form produced by the dashboard's
date inputs (midnight of that day); out-of-range components are invalid, and
other string shapes are conservatively invalid in this model. -/
def isoParse (cs : List Char) : Option ℤ :=
  match cs with
  | [y1, y2, y3, y4, '-', m1, m2, '-', d1, d2] =>
    if [y1, y2, y3, y4].all isDigitCh ∧ [m1, m2].all isDigitCh ∧ [d1, d2].all isDigitCh then
      let y := (digitsToNat [y1, y2, y3, y4] : ℤ)
      let m := (digitsToNat [m1, m2] : ℤ)
      let d := (digitsToNat [d1, d2] : ℤ)
      if 1 ≤ m ∧ m ≤ 12 ∧ 1 ≤ d ∧ d ≤ daysInMonthZ y m then
        some (daysFromCivil y m d * msPerDay)
      else none
    else none
  | _ => none

def isoDateV (s : String) : JSDate := isoParse s.data

/-! Section: The dashboard pipeline -/

/-- A row: header name to cell value; a header the row has no cell for
reads `undefined`. -/
def Row := String → Value

structure DashboardData where
  headers : List String
  rows : List Row

/-- A row tagged with its stable original index (`_id`). -/
structure IdRow where
  idx : ℕ
  cells : Row

/-- Models `data.rows.map((row, index) => ({ ...row, _id: index }))`. -/
def rowsWithIndex (rows : List Row) : List IdRow :=
  rows.enum.map (fun p => ⟨p.1, p.2⟩)

/-- Models `parseBrazilianDate`: non-strings and the empty string give `null` (`none`);
a string whose space-prefix splits on `/` into exactly three parts goes to
the `new Date(year, month-1, day)` constructor (which may yield an *invalid*
date object, `some none`, when a part is non-numeric — the constructor's
result is returned without an `isNaN` check); otherwise generic date parsing
is attempted on the whole string and `null` is returned when it fails.
-/
def parseBrazilianDate : Value → Option JSDate
  | .vStr s =>
    if s = "" then none
    else
      match splitCh (headD (splitCh s.data ' ')) '/' with
      | [p0, p1, p2] =>
        some (jsMkDate (rawOfChars p2)
          ((rawOfChars p1).map (fun q => (q.1 - (q.2 : ℤ), q.2))) (rawOfChars p0))
      | _ =>
        match isoParse s.data with
        | some t => some (some t)
        | none => none
  | _ => none

/-- The header predicate of `findHeader`'s fallback scan: the header's
lowercase form equals, or contains as a substring, one candidate fragment. -/
def headerPred (keys : List String) (h : String) : Bool :=
  keys.any (fun k => (jsLower h == jsLower k) || containsSeg (jsLower h) (jsLower k))

/-- Models `findHeader(keys, indexHint)`: the header at the hint position when that slot
holds a truthy (non-empty) header, otherwise the first header in order whose
lowercase form equals or contains one of the candidate fragments.
-/
def findHeader (headers : List String) (keys : List String) (hint : Option ℕ) : Option String :=
  match hint with
  | some i =>
    match headers.get? i with
    | some h => if h ≠ "" then some h else headers.find? (headerPred keys)
    | none => headers.find? (headerPred keys)
  | none => headers.find? (headerPred keys)

def colDataOf (data : DashboardData) : Option String :=
  findHeader data.headers ["data", "data da venda"] (some 1)

def colProdutoOf (data : DashboardData) : Option String :=
  findHeader data.headers ["produto", "nome do produto"] (some 7)

def colFatOf (data : DashboardData) : Option String :=
  findHeader data.headers ["valor", "valor da venda", "venda"] (some 11)

def colCampaignOf (data : DashboardData) : Option String :=
  findHeader data.headers ["utm_campaign", "campanha"] (some 29)

def colTermOf (data : DashboardData) : Option String :=
  findHeader data.headers ["utm_term", "termo"] (some 30)

inductive DatePreset where
  | all | today | d7 | d15 | d30 | custom
deriving DecidableEq

/-- The component's filter-related state. -/
structure FilterState where
  filters : List (String × List String)
  columnSearchTerms : List (String × String)
  searchTerm : String
  manualInvestment : ℚ
  groupInvestments : List (String × ℚ)
  activeHeaderFilter : Option String
  datePreset : DatePreset
  customStartDate : String
  customEndDate : String

/-- Association-list update modelling `{ ...prev, [column]: value }`:
the first entry for the key is replaced in place, a missing key is appended. -/
def setKey {α : Type} : List (String × α) → String → α → List (String × α)
  | [], k, v => [(k, v)]
  | (k2, v2) :: t, k, v =>
    if k2 == k then (k2, v) :: t else (k2, v2) :: setKey t k v

/-- Models `toggleFilter(column, value)`: remove the value from the column's selection
when present (removing every occurrence), append it when absent; an empty
result is stored as an explicit empty list.
-/
def toggleFilter (column value : String) (st : FilterState) : FilterState :=
  let current := (List.lookup column st.filters).getD []
  let updated :=
    if current.contains value then current.filter (fun v => !(v == value))
    else current ++ [value]
  { st with filters := setKey st.filters column (if updated.length > 0 then updated else []) }

/-- Models `clearAllFilters`: resets filters, quick search, per-column search, the
date preset and the open header popup.  It does not touch the investment
figures — nor the custom date bounds. -/
def clearAllFilters (st : FilterState) : FilterState :=
  { st with
    filters := []
    searchTerm := ""
    columnSearchTerms := []
    datePreset := DatePreset.all
    activeHeaderFilter := none }

/-- The date predicate of `filteredRows`: applied only when a date column
resolved and the preset is not `all`; a `null` parse excludes the row;
`today` compares `toDateString()` renderings; the `N days` presets compare
against `setDate(getDate(endOfDay(now)) - N)` applied to a fresh `new Date()`
(so the threshold keeps the reference instant's time-of-day); `custom`
filters only when both bounds are non-empty.
-/
def datePass (colData : Option String) (preset : DatePreset) (cs ce : String)
    (ref : ℤ) (row : Row) : Bool :=
  match colData with
  | none => true
  | some cd =>
    if preset = DatePreset.all then true
    else
      match parseBrazilianDate (row cd) with
      | none => false
      | some rowDate =>
        match preset with
        | .all => true
        | .today => jsDateEqDayStr rowDate (some ref)
        | .d7 =>
          let now := jsEndOfDay ref
          !(jsDateLt rowDate (some (jsSetDate ref (jsGetDate now - 7))))
        | .d15 =>
          let now := jsEndOfDay ref
          !(jsDateLt rowDate (some (jsSetDate ref (jsGetDate now - 15))))
        | .d30 =>
          let now := jsEndOfDay ref
          !(jsDateLt rowDate (some (jsSetDate ref (jsGetDate now - 30))))
        | .custom =>
          if cs ≠ "" ∧ ce ≠ "" then
            let start := isoDateV cs
            let endD := (isoDateV ce).map jsEndOfDay
            !(jsDateLt rowDate start || jsDateGt rowDate endD)
          else true

/-- The categorical predicate: every stored selection list must either be
empty or contain the row's (string-coerced) value for that column. -/
def matchesFilters (filters : List (String × List String)) (row : Row) : Bool :=
  filters.all (fun e => e.2.isEmpty || e.2.contains (jsStr (row e.1)))

/-- The free-text predicate: an empty search passes; otherwise some header's
string-coerced, lowercased cell must contain the lowercased search string. -/
def matchesSearch (headers : List String) (term : String) (row : Row) : Bool :=
  term == "" || headers.any (fun h => containsSeg (jsLower (jsStr (row h))) (jsLower term))

/-- The row filter of `filteredRows` (the three predicates are evaluated on
the same row and conjoined, matching the early-return structure). -/
def includeRow (data : DashboardData) (st : FilterState) (ref : ℤ) (row : Row) : Bool :=
  datePass (colDataOf data) st.datePreset st.customStartDate st.customEndDate ref row
    && matchesFilters st.filters row
    && matchesSearch data.headers st.searchTerm row

def filteredRows (data : DashboardData) (st : FilterState) (ref : ℤ) : List IdRow :=
  (rowsWithIndex data.rows).filter (fun r => includeRow data st ref r.cells)

/-! Section: Aggregators -/

/-- Models `Number(row[colFaturamento || '']) || 0` : one row's revenue contribution. -/
def rowRevenue (data : DashboardData) (row : Row) : ℚ :=
  jsNumOr0 (row ((colFatOf data).getD ""))

structure Stats where
  fat : ℚ
  gas : ℚ
  imp : ℚ
  luc : ℚ
  roas : ℚ

/-- The KPI reducer `stats`: total revenue over the filtered rows, 6% tax,
profit net of the manual investment and tax, and a zero-guarded ROAS. -/
def statsOf (data : DashboardData) (st : FilterState) (ref : ℤ) : Stats :=
  let fat := (filteredRows data st ref).foldl (fun acc r => acc + rowRevenue data r.cells) 0
  let imp := fat * (6 / 100)
  let gas := st.manualInvestment
  let luc := fat - gas - imp
  let avgRoas := if gas > 0 then fat / gas else 0
  ⟨fat, gas, imp, luc, avgRoas⟩

/-- Models `s.trim()`. -/
def jsTrim (s : String) : String := ⟨trimWS s.data⟩

/-- One cluster record of the UTM DASH grouping (the `src/unnamed/part_000`
variant: trimmed fields, `'N/A'` placeholders, a distinct-dates set). -/
structure Group where
  key : String
  product : String
  campaign : String
  term : String
  salesCount : ℕ
  totalRevenue : ℚ
  dates : List String

/-- Models `Set.add` on the insertion-ordered distinct-dates list. -/
def setAdd (l : List String) (s : String) : List String :=
  if l.contains s then l else l ++ [s]

/-- The trimmed `(product, campaign, term)` fields of a row, with the
`'N/A'` fallback for falsy cells. -/
def groupFields (data : DashboardData) (row : Row) : String × String × String :=
  (jsTrim (jsStr (jsOrDefault (row ((colProdutoOf data).getD "")) "N/A")),
   jsTrim (jsStr (jsOrDefault (row ((colCampaignOf data).getD "")) "N/A")),
   jsTrim (jsStr (jsOrDefault (row ((colTermOf data).getD "")) "N/A")))

def clusterKey (p c t : String) : String := p ++ "|" ++ c ++ "|" ++ t

/-- Contribute one row to the keyed group map (an insertion-ordered
association list, as a JS object's string keys are): the first record with
the key is bumped, a fresh key appends a new record.  A fresh record is
created with the row's contribution already applied, which is the composite
effect of the source's create-then-increment. -/
def insGroup (key p c t : String) (rev : ℚ) (d : String) : List Group → List Group
  | [] => [⟨key, p, c, t, 1, rev, [d]⟩]
  | g :: gs =>
    if g.key == key then
      { g with
        salesCount := g.salesCount + 1
        totalRevenue := g.totalRevenue + rev
        dates := setAdd g.dates d } :: gs
    else g :: insGroup key p c t rev d gs

/-- The date portion (string before the first space) stored in a group's
distinct-dates set. -/
def rowDateOnly (data : DashboardData) (row : Row) : String :=
  ⟨headD (splitCh (jsStr (row ((colDataOf data).getD ""))).data ' ')⟩

def addRowToGroups (data : DashboardData) (gs : List Group) (r : IdRow) : List Group :=
  let f := groupFields data r.cells
  insGroup (clusterKey f.1 f.2.1 f.2.2) f.1 f.2.1 f.2.2
    (rowRevenue data r.cells) (rowDateOnly data r.cells) gs

/-- Models `groupedData`: group the filtered rows by the composite key and sort the
records descending by sale count (the comparator `b.salesCount - a.salesCount`). -/
def groupedData (data : DashboardData) (st : FilterState) (ref : ℤ) : List Group :=
  ((filteredRows data st ref).foldl (addRowToGroups data) []).mergeSort
    (fun a b => decide (b.salesCount ≤ a.salesCount))

def sumSales (gs : List Group) : ℕ := (gs.map (fun g => g.salesCount)).sum

def sumRev (gs : List Group) : ℚ := (gs.map (fun g => g.totalRevenue)).sum

/-! Section: The spec's reading of the schema resolver

Modelled from the spec (section 4.1), for comparison with `findHeader`:
hint position first, then the first exact lowercase equality anywhere in the
header list, then the first substring match. -/

def findHeaderSpec (headers : List String) (keys : List String) (hint : Option ℕ) : Option String :=
  let exact := headers.find? (fun h => keys.any (fun k => jsLower h == jsLower k))
  let sub := headers.find? (fun h => keys.any (fun k => containsSeg (jsLower h) (jsLower k)))
  match hint with
  | some i =>
    match headers.get? i with
    | some h => some h
    | none => exact <|> sub
  | none => exact <|> sub

/-! Section: Helper lemmas -/

theorem foldl_add_map {α : Type} (f : α → ℚ) :
    ∀ (l : List α) (a : ℚ), l.foldl (fun acc x => acc + f x) a = a + (l.map f).sum
  | [], a => by simp
  | x :: t, a => by
    simp only [List.foldl_cons, List.map_cons, List.sum_cons, foldl_add_map f t]
    ring

theorem find_first_iff {α : Type} (p : α → Bool) :
    ∀ (l : List α) (b : α),
      l.find? p = some b ↔
        p b = true ∧ ∃ l₁ l₂, l = l₁ ++ b :: l₂ ∧ ∀ a ∈ l₁, p a = false
  | [], b => by
    constructor
    · intro h
      exact absurd h (by simp)
    · rintro ⟨-, l₁, l₂, h, -⟩
      exact absurd h (by simp)
  | x :: t, b => by
    rw [List.find?_cons]
    cases hx : p x with
    | true =>
      simp only [Option.some.injEq]
      constructor
      · rintro rfl
        exact ⟨hx, [], t, rfl, by simp⟩
      · rintro ⟨hb, l₁, l₂, hdec, hall⟩
        cases l₁ with
        | nil =>
          simp only [List.nil_append, List.cons.injEq] at hdec
          exact hdec.1
        | cons y l₁ =>
          simp only [List.cons_append, List.cons.injEq] at hdec
          have hxf : p x = false := by
            rw [hdec.1]
            exact hall y (List.mem_cons_self y l₁)
          exact absurd hx (by simp [hxf])
    | false =>
      constructor
      · intro h
        rcases (find_first_iff p t b).mp h with ⟨hb, l₁, l₂, rfl, hall⟩
        refine ⟨hb, x :: l₁, l₂, rfl, ?_⟩
        intro a ha
        rcases List.mem_cons.mp ha with rfl | ha
        · exact hx
        · exact hall a ha
      · rintro ⟨hb, l₁, l₂, hdec, hall⟩
        cases l₁ with
        | nil =>
          simp only [List.nil_append, List.cons.injEq] at hdec
          have hpx : p x = true := by
            rw [hdec.1]
            exact hb
          exact absurd hpx (by simp [hx])
        | cons y l₁ =>
          simp only [List.cons_append, List.cons.injEq] at hdec
          exact (find_first_iff p t b).mpr
            ⟨hb, l₁, l₂, hdec.2, fun a ha => hall a (List.mem_cons_of_mem y ha)⟩

/-! Section: C1 : the KPI reducer -/

/-- C1.  For every dataset, filter state and reference moment, the KPI
reducer's total revenue is the sum over exactly the filtered row set of the
revenue cell coerced with non-numeric/missing cells as 0; tax is `R × 0.06`;
profit is `R − investment − tax` for the manual investment; and ROAS is
`R / investment` when the investment is positive and exactly 0 otherwise
(there is no NaN or infinity in the exact model). -/
theorem c1_kpi_reducer :
    ∀ (data : DashboardData) (st : FilterState) (ref : ℤ),
      (statsOf data st ref).fat
          = ((filteredRows data st ref).map (fun r => rowRevenue data r.cells)).sum
      ∧ (statsOf data st ref).imp = (statsOf data st ref).fat * (6 / 100)
      ∧ (statsOf data st ref).luc
          = (statsOf data st ref).fat - st.manualInvestment - (statsOf data st ref).imp
      ∧ (statsOf data st ref).gas = st.manualInvestment
      ∧ (statsOf data st ref).roas
          = (if 0 < st.manualInvestment then (statsOf data st ref).fat / st.manualInvestment
             else 0) := by
  intro data st ref
  refine ⟨?_, rfl, rfl, rfl, rfl⟩
  show (filteredRows data st ref).foldl (fun acc r => acc + rowRevenue data r.cells) 0 = _
  rw [foldl_add_map (fun r => rowRevenue data r.cells) (filteredRows data st ref) 0]
  simp

/-! Section: C7 : clear-all resets filters but not the custom date bounds -/

/-- C7 counterexample.  The clear-all action leaves the custom start/end date
bounds exactly as they were (they are not reset to the `''` default), so the
claim that clearing resets the custom bounds is false. -/
theorem c7_counterexample :
    (clearAllFilters
        ⟨[], [], "", 0, [], none, DatePreset.custom, "2024-03-01", "2024-03-31"⟩).customStartDate
        = "2024-03-01"
    ∧ (clearAllFilters
        ⟨[], [], "", 0, [], none, DatePreset.custom, "2024-03-01", "2024-03-31"⟩).customEndDate
        = "2024-03-31"
    ∧ ("2024-03-01" : String) ≠ "" ∧ ("2024-03-31" : String) ≠ "" := by
  refine ⟨rfl, rfl, by decide, by decide⟩

/-- C7 as amended.  Clear-all empties the categorical selections, the quick
search and the per-column search terms, returns the preset to `all` and closes
the header popup — under the cleared state every row passes the filter — while
the manual investment, the per-cluster investment map and also the custom
start/end date bounds are left unchanged. -/
theorem c7_clear_resets_filters_keeps_investments :
    ∀ (data : DashboardData) (st : FilterState) (ref : ℤ),
      (clearAllFilters st).filters = []
      ∧ (clearAllFilters st).searchTerm = ""
      ∧ (clearAllFilters st).columnSearchTerms = []
      ∧ (clearAllFilters st).datePreset = DatePreset.all
      ∧ (clearAllFilters st).activeHeaderFilter = none
      ∧ (clearAllFilters st).manualInvestment = st.manualInvestment
      ∧ (clearAllFilters st).groupInvestments = st.groupInvestments
      ∧ (clearAllFilters st).customStartDate = st.customStartDate
      ∧ (clearAllFilters st).customEndDate = st.customEndDate
      ∧ filteredRows data (clearAllFilters st) ref = rowsWithIndex data.rows := by
  intro data st ref
  refine ⟨rfl, rfl, rfl, rfl, rfl, rfl, rfl, rfl, rfl, ?_⟩
  have hinc : ∀ r : IdRow, includeRow data (clearAllFilters st) ref r.cells = true := by
    intro r
    unfold includeRow datePass matchesFilters matchesSearch clearAllFilters
    rcases colDataOf data with - | cd <;> simp
  unfold filteredRows
  rw [List.filter_congr (fun r _ => hinc r)]
  simp

/-! Section: C9 : the filtered list is an order-preserving identified subsequence -/

/-- C9.  For every dataset and filter state, the filtered row list is a
sublist of the indexed row list; every filtered row's `_id` indexes its own
cells in the original rows array; and the `_id`s appear strictly increasing
(hence without duplication or reassignment). -/
theorem c9_filtered_subsequence :
    ∀ (data : DashboardData) (st : FilterState) (ref : ℤ),
      (filteredRows data st ref).Sublist (rowsWithIndex data.rows)
      ∧ List.Forall (fun r => data.rows[r.idx]? = some r.cells) (filteredRows data st ref)
      ∧ List.Pairwise (fun a b => a.idx < b.idx) (filteredRows data st ref) := by
  intro data st ref
  have hsub : (filteredRows data st ref).Sublist (rowsWithIndex data.rows) :=
    List.filter_sublist _
  have hpw : List.Pairwise (fun a b : IdRow => a.idx < b.idx) (rowsWithIndex data.rows) := by
    unfold rowsWithIndex
    rw [List.pairwise_map]
    have hfst : List.Pairwise (fun p q : ℕ × Row => p.1 < q.1) data.rows.enum := by
      have h1 : List.Pairwise (· < ·) (data.rows.enum.map Prod.fst) := by
        rw [List.enum_map_fst]
        exact List.pairwise_lt_range _
      rw [List.pairwise_map] at h1
      exact h1
    exact hfst
  refine ⟨hsub, ?_, hpw.sublist hsub⟩
  rw [List.forall_iff_forall_mem]
  intro r hr
  have hmem : r ∈ rowsWithIndex data.rows := hsub.mem hr
  unfold rowsWithIndex at hmem
  rcases List.mem_map.mp hmem with ⟨p, hp, rfl⟩
  exact List.mem_enum_iff_getElem?.mp hp

/-! Section: C10 : absent cells and the free-text scan -/

/-- C10.  An absent cell is coerced to the literal string `"undefined"`, so a
row missing a value for at least one header passes the free-text predicate
whenever the lowercased search string is a substring of `"undefined"`. -/
theorem c10_undefined_matches_search :
    jsStr Value.undef = "undefined"
    ∧ ∀ (headers : List String) (term : String) (row : Row) (h : String),
        h ∈ headers → row h = Value.undef →
        containsSeg (jsLower "undefined") (jsLower term) = true →
        matchesSearch headers term row = true := by
  refine ⟨rfl, ?_⟩
  intro headers term row h hmem hundef hsub
  unfold matchesSearch
  rw [Bool.or_eq_true]
  right
  rw [List.any_eq_true]
  exact ⟨h, hmem, by rw [hundef]; exact hsub⟩

/-- C10 witness: a concrete row missing its `"data"` cell matches the search
string `"ndefi"` although no actual cell contains it. -/
theorem c10_witness :
    matchesSearch ["produto", "data"] "ndefi"
      (fun h => if h = "produto" then Value.vStr "X" else Value.undef) = true :=
  c10_undefined_matches_search.2 ["produto", "data"] "ndefi"
    (fun h => if h = "produto" then Value.vStr "X" else Value.undef) "data"
    (by decide) (by decide) (by decide)

/-! Section: C2 : unparseable date cells under non-`all` presets

`parseBrazilianDate` guards the generic-parse branch with `isNaN` but not the
three-part `d/m/y` branch, so a string such as `"a/b/c"` yields an *invalid*
date object (`some none`), not `null`.  An invalid date fails the `!rowDate`
exclusion, and the NaN comparisons of the range presets then never exclude it:
the row is included under `7days`/`15days`/`30days`/`custom` (only `today`'s
`toDateString` comparison happens to exclude it). -/

/-- C2 evaluation at the failing input: a row whose date cell is the
unparseable three-part string `"a/b/c"` is *included* by the row filter under
the `7days`, `15days`, `30days` and bounded `custom` presets (and excluded
under `today`), contradicting the claim that such rows are excluded for every
non-`all` preset. -/
theorem c2_invalid_date_not_excluded :
    parseBrazilianDate (Value.vStr "a/b/c") = some none
    ∧ includeRow ⟨["data"], []⟩ ⟨[], [], "", 0, [], none, DatePreset.d7, "", ""⟩
        (daysFromCivil 2024 3 15 * 86400000 + 43200000)
        (fun h => if h = "data" then Value.vStr "a/b/c" else Value.undef) = true
    ∧ includeRow ⟨["data"], []⟩ ⟨[], [], "", 0, [], none, DatePreset.d15, "", ""⟩
        (daysFromCivil 2024 3 15 * 86400000 + 43200000)
        (fun h => if h = "data" then Value.vStr "a/b/c" else Value.undef) = true
    ∧ includeRow ⟨["data"], []⟩ ⟨[], [], "", 0, [], none, DatePreset.d30, "", ""⟩
        (daysFromCivil 2024 3 15 * 86400000 + 43200000)
        (fun h => if h = "data" then Value.vStr "a/b/c" else Value.undef) = true
    ∧ includeRow ⟨["data"], []⟩
        ⟨[], [], "", 0, [], none, DatePreset.custom, "2024-03-01", "2024-03-31"⟩
        (daysFromCivil 2024 3 15 * 86400000 + 43200000)
        (fun h => if h = "data" then Value.vStr "a/b/c" else Value.undef) = true
    ∧ includeRow ⟨["data"], []⟩ ⟨[], [], "", 0, [], none, DatePreset.today, "", ""⟩
        (daysFromCivil 2024 3 15 * 86400000 + 43200000)
        (fun h => if h = "data" then Value.vStr "a/b/c" else Value.undef) = false := by
  decide

/-! Section: C4 : the schema resolver is a single equal-or-substring pass -/

/-- C4 counterexample.  With headers `["dataset", "data"]` and candidate
fragment `"data"`, the resolver returns `"dataset"` (the first header whose
lowercase form merely *contains* the fragment), while the spec's priority
order — exact equality anywhere before substring — would return `"data"`. -/
theorem c4_counterexample :
    findHeader ["dataset", "data"] ["data"] none = some "dataset"
    ∧ findHeaderSpec ["dataset", "data"] ["data"] none = some "data"
    ∧ ("dataset" : String) ≠ "data" := by
  decide

/-- C4 as amended.  The resolver returns the hint-position header when that
slot holds a non-empty header; otherwise it makes a *single* pass and returns
the first header, in header order, whose lowercase form equals **or** contains
one candidate fragment — there is no separate exact-equality pass, so an
earlier substring match wins over a later exact match.  Absence means no
header matched at all. -/
theorem c4_resolver_amended :
    ∀ (headers keys : List String),
      (∀ (i : ℕ) (h : String), headers.get? i = some h → h ≠ "" →
          findHeader headers keys (some i) = some h)
      ∧ (∀ h : String, findHeader headers keys none = some h ↔
            headerPred keys h = true
            ∧ ∃ pre post, headers = pre ++ h :: post
                ∧ ∀ h2 ∈ pre, headerPred keys h2 = false)
      ∧ (findHeader headers keys none = none ↔
          ∀ h ∈ headers, headerPred keys h = false) := by
  intro headers keys
  refine ⟨?_, ?_, ?_⟩
  · intro i h hget hne
    unfold findHeader
    simp only [hget]
    rw [if_pos hne]
  · intro h
    unfold findHeader
    exact find_first_iff (headerPred keys) headers h
  · unfold findHeader
    simp [List.find?_eq_none]

/-- C4 witness: the hint clause of the amended resolver theorem applied at a
concrete header list. -/
theorem c4_witness :
    findHeader ["Data da Venda", "produto"] ["valor"] (some 0) = some "Data da Venda" :=
  (c4_resolver_amended ["Data da Venda", "produto"] ["valor"]).1 0 "Data da Venda"
    (by decide) (by decide)

/-! Section: C6 : the custom date range -/

/-- C6.  With preset `custom`, a row whose date cell parses to a valid date
passes the date predicate unconditionally when either bound is missing, and,
when both bounds parse, passes exactly when the parsed date lies in the
inclusive interval from the start (midnight) of the start bound to the last
millisecond of the end bound. -/
theorem c6_custom_predicate :
    ∀ (c cs ce : String) (ref t : ℤ) (row : Row),
      parseBrazilianDate (row c) = some (some t) →
      ((cs = "" ∨ ce = "") → datePass (some c) DatePreset.custom cs ce ref row = true)
      ∧ (∀ s e : ℤ, isoDateV cs = some s → isoDateV ce = some e →
          (datePass (some c) DatePreset.custom cs ce ref row = true ↔
            s ≤ t ∧ t ≤ jsEndOfDay e)) := by
  intro c cs ce ref t row hparse
  constructor
  · intro hmiss
    simp only [datePass, hparse]
    rw [if_neg (by decide)]
    have hcond : ¬(cs ≠ "" ∧ ce ≠ "") := by
      rcases hmiss with rfl | rfl
      · intro hcontra
        exact hcontra.1 rfl
      · intro hcontra
        exact hcontra.2 rfl
    rw [if_neg hcond]
  · intro s e hs he
    have hcs : cs ≠ "" := by
      intro hcontra
      rw [hcontra] at hs
      simp [isoDateV, isoParse] at hs
    have hce : ce ≠ "" := by
      intro hcontra
      rw [hcontra] at he
      simp [isoDateV, isoParse] at he
    simp only [datePass, hparse]
    rw [if_neg (by decide), if_pos ⟨hcs, hce⟩, hs, he]
    simp only [Option.map_some', jsDateGt, jsDateLt, Bool.not_eq_true',
      Bool.or_eq_false_iff, decide_eq_false_iff_not, not_lt]

/-- C6 witness: a concrete row dated `05/03/2024` passes a custom range from
`2024-03-01` to `2024-03-10`. -/
theorem c6_witness :
    datePass (some "data") DatePreset.custom "2024-03-01" "2024-03-10" 0
      (fun h => if h = "data" then Value.vStr "05/03/2024" else Value.undef) = true := by
  have h := (c6_custom_predicate "data" "2024-03-01" "2024-03-10" 0
    (daysFromCivil 2024 3 5 * 86400000)
    (fun h => if h = "data" then Value.vStr "05/03/2024" else Value.undef)
    (by decide)).2
    (daysFromCivil 2024 3 1 * 86400000) (daysFromCivil 2024 3 10 * 86400000)
    (by decide) (by decide)
  exact h.mpr (by decide)

/-! Section: C3 : the N-days presets keep the reference's time-of-day -/

/-- The day count of the `7days` / `15days` / `30days` presets. -/
def presetDays : DatePreset → ℤ
  | .d7 => 7
  | .d15 => 15
  | .d30 => 30
  | _ => 0

/-- C3 counterexample.  At the reference moment midnight 2024-03-15, the row
dated `08/03/2024` (exactly 7 days old, parsed to midnight 2024-03-08)
*passes* the `7days` predicate, although its date is strictly below
end-of-current-day minus 7 × 24h (= 2024-03-08 23:59:59.999): the claimed
end-of-day threshold would exclude it. -/
theorem c3_counterexample :
    datePass (some "data") DatePreset.d7 "" "" (daysFromCivil 2024 3 15 * 86400000)
        (fun h => if h = "data" then Value.vStr "08/03/2024" else Value.undef) = true
    ∧ parseBrazilianDate (Value.vStr "08/03/2024")
        = some (some (daysFromCivil 2024 3 8 * 86400000))
    ∧ jsEndOfDay (daysFromCivil 2024 3 15 * 86400000) - 7 * 86400000
        = daysFromCivil 2024 3 8 * 86400000 + 86399999
    ∧ daysFromCivil 2024 3 8 * 86400000
        < daysFromCivil 2024 3 8 * 86400000 + 86399999 := by
  decide

/-- C3 as amended.  For the `7days`/`15days`/`30days` presets, a row with a
valid parsed date passes the date predicate exactly when its date is at or
after `setDate(getDate(ref) - N)` applied to the reference moment — the
calendar-normalized day-of-month minus N at the reference's **own
time-of-day** (last conjunct): the end-of-day adjustment of `now` only feeds
the `getDate()` call and never changes the threshold's time component. -/
theorem c3_range_presets_amended :
    ∀ (p : DatePreset) (c cs ce : String) (ref t : ℤ) (row : Row),
      (p = DatePreset.d7 ∨ p = DatePreset.d15 ∨ p = DatePreset.d30) →
      parseBrazilianDate (row c) = some (some t) →
      (datePass (some c) p cs ce ref row = true ↔
        jsSetDate ref (jsGetDate ref - presetDays p) ≤ t)
      ∧ jsSetDate ref (jsGetDate ref - presetDays p) % msPerDay = ref % msPerDay := by
  intro p c cs ce ref t row hp hparse
  have hget : jsGetDate (jsEndOfDay ref) = jsGetDate ref := by
    unfold jsGetDate
    have hday : jsEndOfDay ref / msPerDay = ref / msPerDay := by
      unfold jsEndOfDay msPerDay
      omega
    rw [hday]
  have hmod : ∀ x : ℤ, jsSetDate ref x % msPerDay = ref % msPerDay := by
    intro x
    simp only [jsSetDate, msPerDay]
    omega
  rcases hp with rfl | rfl | rfl <;>
    · refine ⟨?_, hmod _⟩
      simp only [datePass, hparse]
      rw [if_neg (by decide)]
      simp only [presetDays, hget, jsDateLt, Bool.not_eq_true', decide_eq_false_iff_not,
        not_lt]

/-- C3 witness: at the reference moment noon 2024-03-15, the row dated
`10/03/2024` passes the `7days` predicate (its date is after noon 2024-03-08,
the reference instant seven days back at the same time-of-day). -/
theorem c3_witness :
    datePass (some "data") DatePreset.d7 "" "" (daysFromCivil 2024 3 15 * 86400000 + 43200000)
      (fun h => if h = "data" then Value.vStr "10/03/2024" else Value.undef) = true := by
  have h := c3_range_presets_amended DatePreset.d7 "data" "" ""
    (daysFromCivil 2024 3 15 * 86400000 + 43200000) (daysFromCivil 2024 3 10 * 86400000)
    (fun h => if h = "data" then Value.vStr "10/03/2024" else Value.undef)
    (Or.inl rfl) (by decide)
  exact h.1.mpr (by decide)

/-! Section: C5 : the cluster grouping partitions the filtered set -/

theorem sumSales_insGroup (key p c t : String) (rev : ℚ) (d : String) :
    ∀ gs : List Group, sumSales (insGroup key p c t rev d gs) = sumSales gs + 1
  | [] => by simp [insGroup, sumSales]
  | g :: gs => by
    unfold insGroup
    by_cases hk : (g.key == key) = true
    · rw [if_pos hk]
      simp [sumSales]
      omega
    · rw [if_neg hk]
      simp only [sumSales, List.map_cons, List.sum_cons]
      have := sumSales_insGroup key p c t rev d gs
      unfold sumSales at this
      omega

theorem sumRev_insGroup (key p c t : String) (rev : ℚ) (d : String) :
    ∀ gs : List Group, sumRev (insGroup key p c t rev d gs) = sumRev gs + rev
  | [] => by simp [insGroup, sumRev]
  | g :: gs => by
    unfold insGroup
    by_cases hk : (g.key == key) = true
    · rw [if_pos hk]
      simp [sumRev]
      ring
    · rw [if_neg hk]
      simp only [sumRev, List.map_cons, List.sum_cons]
      have := sumRev_insGroup key p c t rev d gs
      unfold sumRev at this
      rw [this]
      ring

theorem sumSales_fold (data : DashboardData) :
    ∀ (rows : List IdRow) (gs : List Group),
      sumSales (rows.foldl (addRowToGroups data) gs) = sumSales gs + rows.length
  | [], gs => by simp
  | r :: rows, gs => by
    simp only [List.foldl_cons, List.length_cons]
    rw [sumSales_fold data rows (addRowToGroups data gs r)]
    have h : sumSales (addRowToGroups data gs r) = sumSales gs + 1 := by
      unfold addRowToGroups
      exact sumSales_insGroup _ _ _ _ _ _ gs
    omega

theorem sumRev_fold (data : DashboardData) :
    ∀ (rows : List IdRow) (gs : List Group),
      sumRev (rows.foldl (addRowToGroups data) gs)
        = sumRev gs + (rows.map (fun r => rowRevenue data r.cells)).sum
  | [], gs => by simp
  | r :: rows, gs => by
    simp only [List.foldl_cons, List.map_cons, List.sum_cons]
    rw [sumRev_fold data rows (addRowToGroups data gs r)]
    have h : sumRev (addRowToGroups data gs r) = sumRev gs + rowRevenue data r.cells := by
      unfold addRowToGroups
      exact sumRev_insGroup _ _ _ _ _ _ gs
    rw [h]
    ring

/-- C5.  For every dataset, filter state and reference moment, the cluster
grouping partitions the filtered row set: the sale counts of the cluster
records sum to the number of filtered rows, and their summed revenues sum to
the total revenue of the filtered rows — every filtered row contributes to
exactly one record. -/
theorem c5_grouping_partitions :
    ∀ (data : DashboardData) (st : FilterState) (ref : ℤ),
      sumSales (groupedData data st ref) = (filteredRows data st ref).length
      ∧ sumRev (groupedData data st ref)
          = ((filteredRows data st ref).map (fun r => rowRevenue data r.cells)).sum := by
  intro data st ref
  have hperm :
      (groupedData data st ref).Perm
        ((filteredRows data st ref).foldl (addRowToGroups data) []) := by
    unfold groupedData
    exact List.mergeSort_perm _ _
  constructor
  · have h1 : sumSales (groupedData data st ref)
        = sumSales ((filteredRows data st ref).foldl (addRowToGroups data) []) := by
      unfold sumSales
      exact (hperm.map _).sum_eq
    rw [h1, sumSales_fold]
    simp [sumSales]
  · have h1 : sumRev (groupedData data st ref)
        = sumRev ((filteredRows data st ref).foldl (addRowToGroups data) []) := by
      unfold sumRev
      exact (hperm.map _).sum_eq
    rw [h1, sumRev_fold]
    simp [sumRev]

/-! Section: C8 : toggling a filter value twice restores the filtered set -/

theorem tern_id (l : List String) : (if l.length > 0 then l else []) = l := by
  cases l <;> simp

theorem containsAppend (a b : List String) (x : String) :
    (a ++ b).contains x = (a.contains x || b.contains x) := by
  induction a with
  | nil => simp
  | cons y t ih =>
    simp only [List.cons_append, List.contains_cons, ih, Bool.or_assoc]

theorem containsFilterNe (v : String) (l : List String) (x : String) :
    (l.filter (fun y => !(y == v))).contains x = (l.contains x && !(x == v)) := by
  induction l with
  | nil => simp
  | cons y t ih =>
    rw [List.filter_cons]
    by_cases hy : (y == v) = true
    · rw [if_neg (by simp [hy])]
      rw [ih, List.contains_cons]
      have hyv : y = v := by simpa using hy
      subst hyv
      cases hxv : (x == y) <;> simp [hxv]
    · have hyb : (y == v) = false := by simpa using hy
      rw [if_pos (by simp [hyb])]
      rw [List.contains_cons, List.contains_cons, ih]
      by_cases hx : (x == y) = true
      · have hxy : x = y := by simpa using hx
        subst hxy
        simp [hyb]
      · have hxb : (x == y) = false := by simpa using hx
        rw [hxb]
        simp

theorem filterNeSelf (v : String) (l : List String) (h : l.contains v = false) :
    l.filter (fun y => !(y == v)) = l := by
  induction l with
  | nil => rfl
  | cons y t ih =>
    rw [List.contains_cons, Bool.or_eq_false_iff] at h
    have hvy : v ≠ y := by simpa using h.1
    have hyv : (y == v) = false := by simpa using Ne.symm hvy
    rw [List.filter_cons, if_pos (by simp [hyv]), ih h.2]

theorem lookup_setKey {α : Type} :
    ∀ (l : List (String × α)) (k : String) (v : α),
      List.lookup k (setKey l k v) = some v
  | [], k, v => by simp [setKey]
  | (k2, v2) :: t, k, v => by
    unfold setKey
    by_cases h : (k2 == k) = true
    · have hk : k2 = k := by simpa using h
      subst hk
      simp [List.lookup]
    · have hk : (k == k2) = false := by
        have : k2 ≠ k := by simpa using h
        simp [Ne.symm this]
      rw [if_neg (by simpa using h)]
      simp only [List.lookup, hk]
      exact lookup_setKey t k v

theorem setKey_setKey {α : Type} :
    ∀ (l : List (String × α)) (k : String) (v1 v2 : α),
      setKey (setKey l k v1) k v2 = setKey l k v2
  | [], k, v1, v2 => by simp [setKey]
  | (k2, w) :: t, k, v1, v2 => by
    unfold setKey
    by_cases h : (k2 == k) = true
    · rw [if_pos h]
      simp only [setKey, if_pos h]
    · rw [if_neg h]
      simp only [setKey, if_neg h]
      rw [setKey_setKey t k v1 v2]

theorem entry_equiv {v₁ v₂ : List String}
    (h : ∀ x, v₁.contains x = v₂.contains x) (x : String) :
    (v₁.isEmpty || v₁.contains x) = (v₂.isEmpty || v₂.contains x) := by
  cases v₁ with
  | nil =>
    cases v₂ with
    | nil => rfl
    | cons y t =>
      have hc := h y
      simp at hc
  | cons a s =>
    cases v₂ with
    | nil =>
      have hc := h a
      simp at hc
    | cons y t =>
      simp only [List.isEmpty_cons, Bool.false_or]
      exact h x

theorem matchesFilters_setKey_some :
    ∀ (l : List (String × List String)) (c : String) (cur L : List String) (row : Row),
      List.lookup c l = some cur → (∀ x, L.contains x = cur.contains x) →
      matchesFilters (setKey l c L) row = matchesFilters l row
  | [], c, cur, L, row => by simp [List.lookup]
  | (k2, v2) :: t, c, cur, L, row => by
    intro hl hequiv
    unfold setKey
    by_cases h : (k2 == c) = true
    · have hk : k2 = c := by simpa using h
      subst hk
      rw [if_pos h]
      simp only [List.lookup, beq_self_eq_true, Option.some.injEq] at hl
      subst hl
      simp only [matchesFilters, List.all_cons]
      rw [entry_equiv hequiv]
    · have hk : (c == k2) = false := by
        have hne : k2 ≠ c := by simpa using h
        simp [Ne.symm hne]
      rw [if_neg h]
      simp only [List.lookup, hk] at hl
      simp only [matchesFilters, List.all_cons]
      have := matchesFilters_setKey_some t c cur L row hl hequiv
      unfold matchesFilters at this
      rw [this]

theorem matchesFilters_setKey_none :
    ∀ (l : List (String × List String)) (c : String) (L : List String) (row : Row),
      List.lookup c l = none →
      matchesFilters (setKey l c L) row
        = (matchesFilters l row && (L.isEmpty || L.contains (jsStr (row c))))
  | [], c, L, row => by
    intro _
    simp [setKey, matchesFilters]
  | (k2, v2) :: t, c, L, row => by
    intro hl
    unfold setKey
    by_cases h : (k2 == c) = true
    · have hk : k2 = c := by simpa using h
      subst hk
      simp [List.lookup] at hl
    · have hk : (c == k2) = false := by
        have hne : k2 ≠ c := by simpa using h
        simp [Ne.symm hne]
      rw [if_neg h]
      simp only [List.lookup, hk] at hl
      simp only [matchesFilters, List.all_cons]
      have := matchesFilters_setKey_none t c L row hl
      unfold matchesFilters at this
      rw [this, Bool.and_assoc]

theorem toggle_filters_step (c v : String) (s : FilterState) :
    (toggleFilter c v s).filters
      = setKey s.filters c
          (if ((List.lookup c s.filters).getD []).contains v
           then ((List.lookup c s.filters).getD []).filter (fun y => !(y == v))
           else ((List.lookup c s.filters).getD []) ++ [v]) := by
  simp only [toggleFilter]
  rw [tern_id]

/-- C8.  Toggling the same categorical value twice returns a filter state
whose filtered row set coincides with the original one, for every dataset and
reference moment (the stored state may differ only by an explicit empty or
reordered selection list, which imposes the same constraint). -/
theorem c8_toggle_twice_preserves_filtered :
    ∀ (data : DashboardData) (st : FilterState) (ref : ℤ) (c v : String),
      filteredRows data (toggleFilter c v (toggleFilter c v st)) ref
        = filteredRows data st ref := by
  intro data st ref c v
  have hmf : ∀ row : Row,
      matchesFilters (toggleFilter c v (toggleFilter c v st)).filters row
        = matchesFilters st.filters row := by
    intro row
    have hvv : (v == v) = true := by simp
    rcases hl : List.lookup c st.filters with - | cur0
    · have h1 : (toggleFilter c v st).filters = setKey st.filters c [v] := by
        rw [toggle_filters_step, hl]
        simp only [Option.getD_none]
        rw [if_neg (by simp), List.nil_append]
      have hl1 : List.lookup c (toggleFilter c v st).filters = some [v] := by
        rw [h1]
        exact lookup_setKey st.filters c [v]
      have hone : ([v] : List String).contains v = true := by
        rw [List.contains_cons]
        simp
      have hfil : ([v] : List String).filter (fun y => !(y == v)) = [] := by
        rw [List.filter_cons]
        simp [hvv]
      have h2 : (toggleFilter c v (toggleFilter c v st)).filters = setKey st.filters c [] := by
        rw [toggle_filters_step, hl1, h1]
        simp only [Option.getD_some]
        rw [if_pos hone, hfil]
        exact setKey_setKey _ _ _ _
      rw [h2, matchesFilters_setKey_none st.filters c [] row hl]
      simp
    · by_cases hv : cur0.contains v = true
      · have h1 : (toggleFilter c v st).filters
            = setKey st.filters c (cur0.filter (fun y => !(y == v))) := by
          rw [toggle_filters_step, hl]
          simp only [Option.getD_some]
          rw [if_pos hv]
        have hl1 : List.lookup c (toggleFilter c v st).filters
            = some (cur0.filter (fun y => !(y == v))) := by
          rw [h1]
          exact lookup_setKey _ _ _
        have hnc : (cur0.filter (fun y => !(y == v))).contains v = false := by
          rw [containsFilterNe]
          simp
        have h2 : (toggleFilter c v (toggleFilter c v st)).filters
            = setKey st.filters c (cur0.filter (fun y => !(y == v)) ++ [v]) := by
          rw [toggle_filters_step, hl1, h1]
          simp only [Option.getD_some]
          rw [if_neg (by simp [hnc])]
          exact setKey_setKey _ _ _ _
        have hequiv : ∀ x, (cur0.filter (fun y => !(y == v)) ++ [v]).contains x
            = cur0.contains x := by
          intro x
          rw [containsAppend, containsFilterNe]
          have hone : ∀ z : String, ([v] : List String).contains z = (z == v) := by
            intro z
            rw [List.contains_cons]
            simp
          rw [hone x]
          by_cases hx : (x == v) = true
          · have hxv : x = v := by simpa using hx
            subst hxv
            rw [hv, hx]
            simp
          · have hxb : (x == v) = false := by simpa using hx
            rw [hxb]
            simp
        rw [h2, matchesFilters_setKey_some st.filters c cur0 _ row hl hequiv]
      · have hv' : cur0.contains v = false := by simpa using hv
        have h1 : (toggleFilter c v st).filters = setKey st.filters c (cur0 ++ [v]) := by
          rw [toggle_filters_step, hl]
          simp only [Option.getD_some]
          rw [if_neg (by rw [hv']; simp)]
        have hl1 : List.lookup c (toggleFilter c v st).filters = some (cur0 ++ [v]) := by
          rw [h1]
          exact lookup_setKey _ _ _
        have hcv : (cur0 ++ [v]).contains v = true := by
          rw [containsAppend, List.contains_cons]
          simp
        have h2 : (toggleFilter c v (toggleFilter c v st)).filters
            = setKey st.filters c ((cur0 ++ [v]).filter (fun y => !(y == v))) := by
          rw [toggle_filters_step, hl1, h1]
          simp only [Option.getD_some]
          rw [if_pos hcv]
          exact setKey_setKey _ _ _ _
        have hfil : ([v] : List String).filter (fun y => !(y == v)) = [] := by
          rw [List.filter_cons]
          simp [hvv]
        have h3 : (cur0 ++ [v]).filter (fun y => !(y == v)) = cur0 := by
          rw [List.filter_append, filterNeSelf v cur0 hv', hfil, List.append_nil]
        rw [h2, h3, matchesFilters_setKey_some st.filters c cur0 cur0 row hl (fun x => rfl)]
  unfold filteredRows
  refine List.filter_congr ?_
  intro r _
  unfold includeRow
  rw [hmf r.cells]
  rfl

end UTMDash
